import Mathlib

/-!
Formal model of `vietnam_protected_areas_viz.py` (Vietnam Protected Areas
Christmas-tree visualization).

The embedding covers the parts of the program with algorithmic content:

* `calculate_star_sizes` — square-root (Flannery) cartographic scaling of
  area magnitudes to marker sizes, translated line by line from the numpy
  code.  Floats are idealized as real numbers; a float value is modelled as
  `Option ℝ` where `none` stands for a non-finite value (NaN): numpy's
  `sqrt` of a negative yields NaN, a reduction over an array containing NaN
  yields NaN, and the `0/0` arising from a degenerate magnitude range
  yields NaN (all warnings are suppressed by the program).  The outer
  `Option` of the result models the `ValueError` numpy raises when a
  reduction (`.min()`/`.max()`) is applied to an empty array.
* the star-glyph emission inside `create_visualization` — for one data
  point, the sequence of scatter primitives the code draws (three glow
  layers, the foreground star, five sparkle dots at the analytic star-tip
  positions).
* `fetch_vietnam_boundary` — success/failure behaviour with respect to the
  presence and loadability of the GADM boundary file.
-/

namespace VizModel

/-- A numpy float value: `some r` is a finite float (idealized as a real
number) and `none` is NaN (non-finite). -/
abbrev FP := Option ℝ

/-- Float subtraction; NaN propagates. -/
def fpSub : FP → FP → FP
  | some a, some b => some (a - b)
  | _, _ => none

/-- Float addition; NaN propagates. -/
def fpAdd : FP → FP → FP
  | some a, some b => some (a + b)
  | _, _ => none

/-- Float multiplication; NaN propagates. -/
def fpMul : FP → FP → FP
  | some a, some b => some (a * b)
  | _, _ => none

/-- Float division; NaN propagates, and division by zero is non-finite
(in the program the only zero denominator is the degenerate `0/0`, which is
NaN in IEEE arithmetic). -/
noncomputable def fpDiv : FP → FP → FP
  | some a, some b => if b = 0 then none else some (a / b)
  | _, _ => none

/-- Binary minimum of floats; NaN propagates (as in numpy's `min`
reduction). -/
noncomputable def fpMin2 : FP → FP → FP
  | some a, some b => some (min a b)
  | _, _ => none

/-- Binary maximum of floats; NaN propagates. -/
noncomputable def fpMax2 : FP → FP → FP
  | some a, some b => some (max a b)
  | _, _ => none

/-- numpy `.min()` reduction: raises `ValueError` (outer `none`) on an
empty array, otherwise folds the NaN-propagating binary minimum. -/
noncomputable def npMin : List FP → Option FP
  | [] => none
  | x :: xs => some (xs.foldl fpMin2 x)

/-- numpy `.max()` reduction: raises `ValueError` (outer `none`) on an
empty array, otherwise folds the NaN-propagating binary maximum. -/
noncomputable def npMax : List FP → Option FP
  | [] => none
  | x :: xs => some (xs.foldl fpMax2 x)

/-- numpy `sqrt` on one element: NaN on a negative input, otherwise the
real square root. -/
noncomputable def npSqrt (a : ℝ) : FP :=
  if a < 0 then none else some (Real.sqrt a)

/-- Model of `calculate_star_sizes(areas, min_size, max_size)`
(`vietnam_protected_areas_viz.py`, lines 382-414):

    areas = np.array(areas)
    sqrt_areas = np.sqrt(areas)
    min_sqrt = sqrt_areas.min()
    max_sqrt = sqrt_areas.max()
    normalized = (sqrt_areas - min_sqrt) / (max_sqrt - min_sqrt)
    sizes = min_size + normalized * (max_size - min_size)
    return sizes

The outer `Option` is the exception channel: `none` means the call raised
(which happens exactly when `areas` is empty, at `sqrt_areas.min()`). -/
noncomputable def calculate_star_sizes (areas : List ℝ) (min_size max_size : ℝ) :
    Option (List FP) :=
  let sqrt_areas := areas.map npSqrt
  match npMin sqrt_areas, npMax sqrt_areas with
  | some min_sqrt, some max_sqrt =>
    let normalized := sqrt_areas.map fun s => fpDiv (fpSub s min_sqrt) (fpSub max_sqrt min_sqrt)
    some (normalized.map fun n => fpAdd (some min_size) (fpMul n (some (max_size - min_size))))
  | _, _ => none

/-- The minimum of the square roots of the areas (the code's `min_sqrt`,
when the input is non-empty and non-negative). -/
noncomputable def sqrtLo (areas : List ℝ) : ℝ :=
  ((areas.map Real.sqrt).min?).getD 0

/-- The maximum of the square roots of the areas (the code's `max_sqrt`,
when the input is non-empty and non-negative). -/
noncomputable def sqrtHi (areas : List ℝ) : ℝ :=
  ((areas.map Real.sqrt).max?).getD 0

/-- The `area_km2` column of the 25-record sample dataset built by
`fetch_wdpa_vietnam` (lines 136-139). -/
noncomputable def areas25 : List ℝ :=
  [100, 720, 857, 222, 368, 108, 155, 298, 1156, 650, 76, 314, 75, 82,
   410, 757, 220, 295, 589, 71, 552, 166, 912, 260, 185]

/-- The same magnitudes as natural numbers (used to evaluate the minimum
and maximum of `areas25` by computation). -/
def areas25N : List ℕ :=
  [100, 720, 857, 222, 368, 108, 155, 298, 1156, 650, 76, 314, 75, 82,
   410, 757, 220, 295, 589, 71, 552, 166, 912, 260, 185]

/-- One scatter primitive drawn by `create_visualization`: the marker
style, the centre, the size argument `s`, the fill colour, the edge
colour, the line width (`none` when the `linewidths` argument is omitted
and the library default applies) and the opacity.  Within one glyph the
source's z-orders (8, 9, 10, 11, 12) increase in emission order, so the
position in the emitted list already encodes the back-to-front order. -/
structure Primitive where
  marker : String
  x : ℝ
  y : ℝ
  s : ℝ
  c : String
  edgecolors : String
  linewidths : Option ℝ
  alpha : ℝ

/-- The glyph the code draws for one protected area with centre `(x, y)`,
scaled size `size` and gradient colour `color`
(`vietnam_protected_areas_viz.py`, lines 462-538): four star scatter
layers followed by five sparkle dots at the star tips. -/
noncomputable def renderGlyph (x y size : ℝ) (color : String) : List Primitive :=
  [{ marker := "*", x := x, y := y, s := size * 2.5, c := color,
     edgecolors := "none", linewidths := some 0, alpha := 0.15 },
   { marker := "*", x := x, y := y, s := size * 1.8, c := color,
     edgecolors := "none", linewidths := some 0, alpha := 0.25 },
   { marker := "*", x := x, y := y, s := size * 1.3, c := "white",
     edgecolors := "none", linewidths := some 0, alpha := 0.35 },
   { marker := "*", x := x, y := y, s := size, c := color,
     edgecolors := "#34495e", linewidths := some 1.2, alpha := 0.95 }]
  ++ (List.range 5).map fun i =>
    { marker := "o",
      x := x + Real.sqrt (size / Real.pi) * 0.6 * Real.cos ((i : ℝ) * 2 * Real.pi / 5 + Real.pi / 2),
      y := y + Real.sqrt (size / Real.pi) * 0.6 * Real.sin ((i : ℝ) * 2 * Real.pi / 5 + Real.pi / 2),
      s := size * 0.08, c := "white", edgecolors := "none",
      linewidths := none, alpha := 0.7 }

/-- The glyph renderer with the program's global random-number-generator
state threaded through explicitly.  The star-glyph section of
`create_visualization` makes no call to `np.random`, so the state passes
through untouched (the state type `R` is abstract: any random source). -/
noncomputable def renderGlyphR (R : Type) (rng : R) (x y size : ℝ) (color : String) :
    List Primitive × R :=
  (renderGlyph x y size color, rng)

/-- The glyph layer list exactly as the specification words it
(spec §4.2): (1) outer glow star at 2.5×baseSize, 15% opacity, fill =
colour; (2) mid glow star at 1.8×baseSize, 25% opacity, fill = colour;
(3) inner glow star at 1.3×baseSize, 35% opacity, fill = white;
(4) foreground star at baseSize, 95% opacity, fill = colour, 1.2-unit
outline; (5) five sparkle dots of size 0.08×baseSize, 70% opacity,
fill = white, at tip angles `i·2π/5 + π/2` (i = 0..4) and tip radius
`√(baseSize/π) · 0.6` from the centre.  Only layer (4) has an outline;
the glow layers and dots are pure fills. -/
noncomputable def renderGlyph_spec (x y baseSize : ℝ) (color : String) : List Primitive :=
  [{ marker := "*", x := x, y := y, s := 2.5 * baseSize, c := color,
     edgecolors := "none", linewidths := some 0, alpha := 0.15 },
   { marker := "*", x := x, y := y, s := 1.8 * baseSize, c := color,
     edgecolors := "none", linewidths := some 0, alpha := 0.25 },
   { marker := "*", x := x, y := y, s := 1.3 * baseSize, c := "white",
     edgecolors := "none", linewidths := some 0, alpha := 0.35 },
   { marker := "*", x := x, y := y, s := baseSize, c := color,
     edgecolors := "#34495e", linewidths := some 1.2, alpha := 0.95 }]
  ++ (List.range 5).map fun i =>
    { marker := "o",
      x := x + Real.sqrt (baseSize / Real.pi) * 0.6 * Real.cos ((i : ℝ) * (2 * Real.pi) / 5 + Real.pi / 2),
      y := y + Real.sqrt (baseSize / Real.pi) * 0.6 * Real.sin ((i : ℝ) * (2 * Real.pi) / 5 + Real.pi / 2),
      s := 0.08 * baseSize, c := "white", edgecolors := "none",
      linewidths := none, alpha := 0.7 }

/-- A placeholder primitive used as the default of `List.getD`. -/
def dummyPrim : Primitive :=
  { marker := "", x := 0, y := 0, s := 0, c := "", edgecolors := "",
    linewidths := none, alpha := 0 }

/-- The error message of `fetch_vietnam_boundary`. -/
def boundaryErrMsg : String := "Không tìm thấy file ranh giới Việt Nam!"

/-- Model of `fetch_vietnam_boundary` (lines 44-80) with respect to the
file system: `fileExists` is the value of `os.path.exists(gadm_file)`, and
`loadResult` is `some g` when reading and simplifying the boundary file
succeeds with geometry `g`, `none` when any step of the `try` block raises
(the exception is caught, logged and replaced by the final `raise`).  The
geometry type `G` is abstract. -/
def fetch_vietnam_boundary (G : Type) (fileExists : Bool) (loadResult : Option G) :
    Except String G :=
  if fileExists then
    match loadResult with
    | some g => Except.ok g
    | none => Except.error boundaryErrMsg
  else Except.error boundaryErrMsg

/-! ### Helper lemmas about the float reductions -/

theorem foldl_fpMin2_some (l : List ℝ) (a : ℝ) :
    (l.map some).foldl fpMin2 (some a) = some (l.foldl min a) := by
  induction l generalizing a with
  | nil => rfl
  | cons b bs ih => simpa [fpMin2] using ih (min a b)

theorem foldl_fpMax2_some (l : List ℝ) (a : ℝ) :
    (l.map some).foldl fpMax2 (some a) = some (l.foldl max a) := by
  induction l generalizing a with
  | nil => rfl
  | cons b bs ih => simpa [fpMax2] using ih (max a b)

theorem npMin_map_some (L : List ℝ) : npMin (L.map some) = L.min?.map some := by
  cases L with
  | nil => rfl
  | cons a l =>
    show some ((l.map some).foldl fpMin2 (some a)) = ((a :: l).min?).map some
    rw [List.min?_cons', foldl_fpMin2_some]
    rfl

theorem npMax_map_some (L : List ℝ) : npMax (L.map some) = L.max?.map some := by
  cases L with
  | nil => rfl
  | cons a l =>
    show some ((l.map some).foldl fpMax2 (some a)) = ((a :: l).max?).map some
    rw [List.max?_cons', foldl_fpMax2_some]
    rfl

theorem min?_spec {α : Type} [LinearOrder α] {l : List α} {a : α}
    (h : l.min? = some a) : a ∈ l ∧ ∀ b ∈ l, a ≤ b := by
  haveI : Std.Antisymm ((· : α) ≤ ·) := ⟨fun h₁ h₂ => le_antisymm h₁ h₂⟩
  exact (List.min?_eq_some_iff (fun x => le_refl x) (fun x y => min_choice x y)
    (fun x y z => le_min_iff)).mp h

theorem max?_spec {α : Type} [LinearOrder α] {l : List α} {a : α}
    (h : l.max? = some a) : a ∈ l ∧ ∀ b ∈ l, b ≤ a := by
  haveI : Std.Antisymm ((· : α) ≤ ·) := ⟨fun h₁ h₂ => le_antisymm h₁ h₂⟩
  exact (List.max?_eq_some_iff (fun x => le_refl x) (fun x y => max_choice x y)
    (fun x y z => max_le_iff)).mp h

theorem foldl_min_map {α β : Type} [LinearOrder α] [LinearOrder β]
    {f : α → β} (hf : Monotone f) (l : List α) (a : α) :
    (l.map f).foldl min (f a) = f (l.foldl min a) := by
  induction l generalizing a with
  | nil => rfl
  | cons b bs ih => simpa [← hf.map_min] using ih (min a b)

theorem foldl_max_map {α β : Type} [LinearOrder α] [LinearOrder β]
    {f : α → β} (hf : Monotone f) (l : List α) (a : α) :
    (l.map f).foldl max (f a) = f (l.foldl max a) := by
  induction l generalizing a with
  | nil => rfl
  | cons b bs ih => simpa [← hf.map_max] using ih (max a b)

theorem min?_map_mono {α β : Type} [LinearOrder α] [LinearOrder β]
    {f : α → β} (hf : Monotone f) (L : List α) :
    (L.map f).min? = L.min?.map f := by
  cases L with
  | nil => rfl
  | cons a l =>
    rw [List.map_cons, List.min?_cons', List.min?_cons', foldl_min_map hf]
    rfl

theorem max?_map_mono {α β : Type} [LinearOrder α] [LinearOrder β]
    {f : α → β} (hf : Monotone f) (L : List α) :
    (L.map f).max? = L.max?.map f := by
  cases L with
  | nil => rfl
  | cons a l =>
    rw [List.map_cons, List.max?_cons', List.max?_cons', foldl_max_map hf]
    rfl

theorem map_npSqrt_of_nonneg {areas : List ℝ} (h : ∀ a ∈ areas, 0 ≤ a) :
    areas.map npSqrt = (areas.map Real.sqrt).map some := by
  rw [List.map_map]
  exact List.map_congr_left fun a ha => by simp [npSqrt, not_lt.mpr (h a ha)]

theorem min?_isSome_of_ne_nil {α : Type} [LinearOrder α] {l : List α} (h : l ≠ []) :
    ∃ a, l.min? = some a := by
  cases l with
  | nil => exact absurd rfl h
  | cons a l => exact ⟨_, List.min?_cons'⟩

theorem max?_isSome_of_ne_nil {α : Type} [LinearOrder α] {l : List α} (h : l ≠ []) :
    ∃ a, l.max? = some a := by
  cases l with
  | nil => exact absurd rfl h
  | cons a l => exact ⟨_, List.max?_cons'⟩

theorem sqrtLoHi_spec (areas : List ℝ) (hne : areas ≠ []) :
    (sqrtLo areas ∈ areas.map Real.sqrt ∧ ∀ s ∈ areas.map Real.sqrt, sqrtLo areas ≤ s) ∧
    (sqrtHi areas ∈ areas.map Real.sqrt ∧ ∀ s ∈ areas.map Real.sqrt, s ≤ sqrtHi areas) := by
  have hne' : areas.map Real.sqrt ≠ [] := by simpa using hne
  obtain ⟨m, hm⟩ := min?_isSome_of_ne_nil hne'
  obtain ⟨M, hM⟩ := max?_isSome_of_ne_nil hne'
  refine ⟨?_, ?_⟩
  · simpa [sqrtLo, hm] using min?_spec hm
  · simpa [sqrtHi, hM] using max?_spec hM

theorem sqrtLo_lt_sqrtHi {areas : List ℝ} (hpos : ∀ a ∈ areas, 0 ≤ a)
    (hdist : ∃ x ∈ areas, ∃ y ∈ areas, x ≠ y) :
    sqrtLo areas < sqrtHi areas := by
  obtain ⟨x, hx, y, hy, hxy⟩ := hdist
  have hne : areas ≠ [] := by rintro rfl; simp at hx
  obtain ⟨⟨hml, hlb⟩, hmM, hub⟩ := sqrtLoHi_spec areas hne
  have hsx : Real.sqrt x ∈ areas.map Real.sqrt := List.mem_map_of_mem _ hx
  have hsy : Real.sqrt y ∈ areas.map Real.sqrt := List.mem_map_of_mem _ hy
  have hne2 : Real.sqrt x ≠ Real.sqrt y :=
    fun h => hxy ((Real.sqrt_inj (hpos x hx) (hpos y hy)).mp h)
  by_contra hcon
  push_neg at hcon
  exact hne2 (le_antisymm
    (le_trans (hub _ hsx) (le_trans hcon (hlb _ hsy)))
    (le_trans (hub _ hsy) (le_trans hcon (hlb _ hsx))))

/-- Under the spec's preconditions (non-empty, non-negative, non-degenerate
range) the code computes exactly the normalized square-root formula. -/
theorem scale_eq (areas : List ℝ) (minS maxS : ℝ) (hne : areas ≠ [])
    (hpos : ∀ a ∈ areas, 0 ≤ a)
    (hdist : ∃ x ∈ areas, ∃ y ∈ areas, x ≠ y) :
    calculate_star_sizes areas minS maxS =
      some (areas.map fun a =>
        some (minS + (Real.sqrt a - sqrtLo areas) / (sqrtHi areas - sqrtLo areas)
          * (maxS - minS))) := by
  have hne' : areas.map Real.sqrt ≠ [] := by simpa using hne
  obtain ⟨m, hm⟩ := min?_isSome_of_ne_nil hne'
  obtain ⟨M, hM⟩ := max?_isSome_of_ne_nil hne'
  have hlo : sqrtLo areas = m := by simp [sqrtLo, hm]
  have hhi : sqrtHi areas = M := by simp [sqrtHi, hM]
  have hlt : m < M := by
    rw [← hlo, ← hhi]; exact sqrtLo_lt_sqrtHi hpos hdist
  have hMm : M - m ≠ 0 := sub_ne_zero.mpr (ne_of_gt hlt)
  rw [hlo, hhi]
  simp only [calculate_star_sizes, map_npSqrt_of_nonneg hpos]
  rw [npMin_map_some, npMax_map_some, hm, hM]
  simp only [Option.map_some']
  refine congrArg some ?_
  rw [List.map_map, List.map_map, List.map_map]
  refine List.map_congr_left fun a _ => ?_
  simp [Function.comp, fpSub, fpDiv, fpMul, fpAdd, hMm]

theorem formula_mem_range {lo hi minS maxS s : ℝ} (hlo : lo ≤ s) (hhi : s ≤ hi)
    (hlh : lo < hi) (hlt : minS < maxS) :
    minS ≤ minS + (s - lo) / (hi - lo) * (maxS - minS) ∧
    minS + (s - lo) / (hi - lo) * (maxS - minS) ≤ maxS := by
  have hd : 0 < hi - lo := by linarith
  have ht0 : 0 ≤ (s - lo) / (hi - lo) := div_nonneg (by linarith) hd.le
  have ht1 : (s - lo) / (hi - lo) ≤ 1 := (div_le_one hd).mpr (by linarith)
  have hD : 0 ≤ maxS - minS := by linarith
  constructor
  · nlinarith [mul_nonneg ht0 hD]
  · nlinarith [mul_le_mul_of_nonneg_right ht1 hD]

theorem formula_mono {lo hi minS maxS : ℝ} (hlh : lo < hi) (hlt : minS ≤ maxS)
    {a b : ℝ} (hab : a ≤ b) :
    minS + (Real.sqrt a - lo) / (hi - lo) * (maxS - minS) ≤
      minS + (Real.sqrt b - lo) / (hi - lo) * (maxS - minS) := by
  have hd : 0 < hi - lo := by linarith
  have hs : Real.sqrt a ≤ Real.sqrt b := Real.sqrt_le_sqrt hab
  have h1 : (Real.sqrt a - lo) / (hi - lo) ≤ (Real.sqrt b - lo) / (hi - lo) :=
    (div_le_div_iff_of_pos_right hd).mpr (by linarith)
  have := mul_le_mul_of_nonneg_right h1 (by linarith : 0 ≤ maxS - minS)
  linarith

/-- Claim C1: for every non-empty list of non-negative magnitudes that are
not all equal and every `min_size < max_size`, `calculate_star_sizes`
returns (without raising) the list of the same length whose `i`-th entry
is `min_size + (√magnitude_i - lo) / (hi - lo) * (max_size - min_size)`,
where `lo` and `hi` are the minimum and maximum of the square roots; every
value of that formula lies in `[min_size, max_size]` and the formula is
monotone non-decreasing in the magnitude. -/
theorem calculate_star_sizes_contract (areas : List ℝ) (minS maxS : ℝ)
    (hne : areas ≠ []) (hpos : ∀ a ∈ areas, 0 ≤ a)
    (hdist : ∃ x ∈ areas, ∃ y ∈ areas, x ≠ y) (hlt : minS < maxS) :
    ∃ lo hi : ℝ,
      lo ∈ areas.map Real.sqrt ∧ (∀ s ∈ areas.map Real.sqrt, lo ≤ s) ∧
      hi ∈ areas.map Real.sqrt ∧ (∀ s ∈ areas.map Real.sqrt, s ≤ hi) ∧
      calculate_star_sizes areas minS maxS =
        some (areas.map fun a =>
          some (minS + (Real.sqrt a - lo) / (hi - lo) * (maxS - minS))) ∧
      (∀ sizes, calculate_star_sizes areas minS maxS = some sizes →
        sizes.length = areas.length) ∧
      (∀ a ∈ areas,
        minS ≤ minS + (Real.sqrt a - lo) / (hi - lo) * (maxS - minS) ∧
        minS + (Real.sqrt a - lo) / (hi - lo) * (maxS - minS) ≤ maxS) ∧
      (∀ a ∈ areas, ∀ b ∈ areas, a ≤ b →
        minS + (Real.sqrt a - lo) / (hi - lo) * (maxS - minS) ≤
          minS + (Real.sqrt b - lo) / (hi - lo) * (maxS - minS)) := by
  obtain ⟨⟨hml, hlb⟩, hmM, hub⟩ := sqrtLoHi_spec areas hne
  have hlh : sqrtLo areas < sqrtHi areas := sqrtLo_lt_sqrtHi hpos hdist
  have heq := scale_eq areas minS maxS hne hpos hdist
  refine ⟨sqrtLo areas, sqrtHi areas, hml, hlb, hmM, hub, heq, ?_, ?_, ?_⟩
  · intro sizes hs
    rw [heq] at hs
    cases hs
    simp
  · intro a ha
    exact formula_mem_range (hlb _ (List.mem_map_of_mem _ ha))
      (hub _ (List.mem_map_of_mem _ ha)) hlh hlt
  · intro a _ b _ hab
    exact formula_mono hlh hlt.le hab

/-- Witness for C1 at `areas = [1, 100]`, `min_size = 10`,
`max_size = 100`. -/
theorem calculate_star_sizes_contract_witness :
    (([1, 100] : List ℝ) ≠ [] ∧ (∀ a ∈ ([1, 100] : List ℝ), 0 ≤ a) ∧
      (∃ x ∈ ([1, 100] : List ℝ), ∃ y ∈ ([1, 100] : List ℝ), x ≠ y) ∧
      (10 : ℝ) < 100) ∧
    (∃ lo hi : ℝ,
      lo ∈ ([1, 100] : List ℝ).map Real.sqrt ∧
      (∀ s ∈ ([1, 100] : List ℝ).map Real.sqrt, lo ≤ s) ∧
      hi ∈ ([1, 100] : List ℝ).map Real.sqrt ∧
      (∀ s ∈ ([1, 100] : List ℝ).map Real.sqrt, s ≤ hi) ∧
      calculate_star_sizes [1, 100] 10 100 =
        some (([1, 100] : List ℝ).map fun a =>
          some (10 + (Real.sqrt a - lo) / (hi - lo) * (100 - 10))) ∧
      (∀ sizes, calculate_star_sizes [1, 100] 10 100 = some sizes →
        sizes.length = ([1, 100] : List ℝ).length) ∧
      (∀ a ∈ ([1, 100] : List ℝ),
        10 ≤ 10 + (Real.sqrt a - lo) / (hi - lo) * (100 - 10) ∧
        10 + (Real.sqrt a - lo) / (hi - lo) * (100 - 10) ≤ 100) ∧
      (∀ a ∈ ([1, 100] : List ℝ), ∀ b ∈ ([1, 100] : List ℝ), a ≤ b →
        10 + (Real.sqrt a - lo) / (hi - lo) * (100 - 10) ≤
          10 + (Real.sqrt b - lo) / (hi - lo) * (100 - 10))) :=
  ⟨⟨by simp, by norm_num, ⟨1, by simp, 100, by simp, by norm_num⟩, by norm_num⟩,
    calculate_star_sizes_contract [1, 100] 10 100 (by simp) (by norm_num)
      ⟨1, by simp, 100, by simp, by norm_num⟩ (by norm_num)⟩

theorem fpMin2_none_left (x : FP) : fpMin2 none x = none := by cases x <;> rfl

theorem fpMax2_none_left (x : FP) : fpMax2 none x = none := by cases x <;> rfl

theorem foldl_fpMin2_none (l : List FP) : l.foldl fpMin2 none = none := by
  induction l with
  | nil => rfl
  | cons b bs ih => simpa [fpMin2_none_left] using ih

theorem foldl_fpMax2_none (l : List FP) : l.foldl fpMax2 none = none := by
  induction l with
  | nil => rfl
  | cons b bs ih => simpa [fpMax2_none_left] using ih

theorem foldl_fpMin2_allEq (c : ℝ) (l : List FP) (h : ∀ x ∈ l, x = some c) :
    l.foldl fpMin2 (some c) = some c := by
  induction l with
  | nil => rfl
  | cons b bs ih =>
    have hb : b = some c := h b (by simp)
    simp only [List.foldl_cons, hb, fpMin2, min_self]
    exact ih fun x hx => h x (by simp [hx])

theorem foldl_fpMax2_allEq (c : ℝ) (l : List FP) (h : ∀ x ∈ l, x = some c) :
    l.foldl fpMax2 (some c) = some c := by
  induction l with
  | nil => rfl
  | cons b bs ih =>
    have hb : b = some c := h b (by simp)
    simp only [List.foldl_cons, hb, fpMax2, max_self]
    exact ih fun x hx => h x (by simp [hx])

/-- Claim C2 (amended): when all magnitudes are equal the code does not
return `min_size`: the normalization divides `0 / 0` (or, for a negative
common value, propagates the NaN of `sqrt`), so every returned element is
NaN.  The degenerate-range guard described by the spec does not exist in
the code. -/
theorem scale_all_equal_is_nan (areas : List ℝ) (c minS maxS : ℝ)
    (hne : areas ≠ []) (hall : ∀ a ∈ areas, a = c) :
    calculate_star_sizes areas minS maxS = some (areas.map fun _ => none) := by
  obtain ⟨a₀, as, rfl⟩ := List.exists_cons_of_ne_nil hne
  rcases lt_or_le c 0 with hc | hc
  · have hmap : (a₀ :: as).map npSqrt = (a₀ :: as).map fun _ => (none : FP) :=
      List.map_congr_left fun a ha => by simp [npSqrt, hall a ha, hc]
    have hmn : npMin ((a₀ :: as).map fun _ => (none : FP)) = some none := by
      simp [npMin, foldl_fpMin2_none]
    have hmx : npMax ((a₀ :: as).map fun _ => (none : FP)) = some none := by
      simp [npMax, foldl_fpMax2_none]
    simp only [calculate_star_sizes, hmap, hmn, hmx, List.map_map]
    refine congrArg some (List.map_congr_left fun a _ => ?_)
    rfl
  · have hmap : (a₀ :: as).map npSqrt =
        (a₀ :: as).map fun _ => some (Real.sqrt c) :=
      List.map_congr_left fun a ha => by
        simp [npSqrt, hall a ha, not_lt.mpr hc]
    have hmn : npMin ((a₀ :: as).map fun _ => some (Real.sqrt c)) =
        some (some (Real.sqrt c)) := by
      simp only [List.map_cons, npMin]
      exact congrArg some (foldl_fpMin2_allEq _ _ (by simp))
    have hmx : npMax ((a₀ :: as).map fun _ => some (Real.sqrt c)) =
        some (some (Real.sqrt c)) := by
      simp only [List.map_cons, npMax]
      exact congrArg some (foldl_fpMax2_allEq _ _ (by simp))
    simp only [calculate_star_sizes, hmap, hmn, hmx, List.map_map]
    refine congrArg some (List.map_congr_left fun a _ => ?_)
    simp [Function.comp, fpSub, fpDiv, fpMul, fpAdd]

/-- Witness for the amended C2 at `[5, 5, 5]`, `min_size = 80`,
`max_size = 1000`. -/
theorem scale_all_equal_is_nan_witness :
    (([5, 5, 5] : List ℝ) ≠ [] ∧ (∀ a ∈ ([5, 5, 5] : List ℝ), a = 5)) ∧
    calculate_star_sizes [5, 5, 5] 80 1000 =
      some (([5, 5, 5] : List ℝ).map fun _ => none) :=
  ⟨⟨by simp, by norm_num⟩,
    scale_all_equal_is_nan [5, 5, 5] 5 80 1000 (by simp) (by norm_num)⟩

/-- Counterexample to C2 as stated: `calculate_star_sizes([5,5,5], 80, 1000)`
returns three NaN values, not `[80, 80, 80]`. -/
theorem scale_553_not_min_size :
    calculate_star_sizes [5, 5, 5] 80 1000 = some [none, none, none] ∧
    some [(none : FP), none, none] ≠ some [some (80 : ℝ), some 80, some 80] := by
  constructor
  · have h5 : ¬ (5 : ℝ) < 0 := by norm_num
    simp [calculate_star_sizes, npSqrt, npMin, npMax, fpMin2, fpMax2,
      fpSub, fpDiv, fpMul, fpAdd, h5]
  · simp

/-- Claim C3 (amended): `calculate_star_sizes` raises if and only if the
magnitude collection is empty (numpy's reduction over a zero-size array);
neither negative magnitudes nor `min_size ≥ max_size` is checked, and
neither causes a failure. -/
theorem scale_raises_iff_empty (areas : List ℝ) (minS maxS : ℝ) :
    calculate_star_sizes areas minS maxS = none ↔ areas = [] := by
  cases areas with
  | nil => simp [calculate_star_sizes, npMin, npMax]
  | cons a as => simp [calculate_star_sizes, npMin, npMax]

/-- Counterexample to C3 as stated: with `min_size = 100 ≥ 10 = max_size`
the precondition is violated, yet the call returns normally (with the
scale reversed) instead of signalling an error. -/
theorem scale_no_precondition_check :
    ¬ (100 : ℝ) < 10 ∧
    calculate_star_sizes [4, 9] 100 10 = some [some 100, some 10] := by
  constructor
  · norm_num
  · have h4 : Real.sqrt 4 = 2 := by
      rw [show (4 : ℝ) = 2 ^ 2 by norm_num]
      exact Real.sqrt_sq (by norm_num)
    have h9 : Real.sqrt 9 = 3 := by
      rw [show (9 : ℝ) = 3 ^ 2 by norm_num]
      exact Real.sqrt_sq (by norm_num)
    have h40 : ¬ (4 : ℝ) < 0 := by norm_num
    have h90 : ¬ (9 : ℝ) < 0 := by norm_num
    norm_num [calculate_star_sizes, npSqrt, npMin, npMax, fpMin2, fpMax2,
      fpSub, fpDiv, fpMul, fpAdd, h4, h9, h40, h90, min_def, max_def]

theorem sqrt_monotone : Monotone Real.sqrt := fun _ _ h => Real.sqrt_le_sqrt h

theorem areas25_eq_cast : areas25 = areas25N.map (Nat.cast : ℕ → ℝ) := by
  norm_num [areas25, areas25N]

theorem areas25_min? : areas25.min? = some 71 := by
  rw [areas25_eq_cast, min?_map_mono Nat.mono_cast,
    show areas25N.min? = some 71 from by decide]
  norm_num

theorem areas25_max? : areas25.max? = some 1156 := by
  rw [areas25_eq_cast, max?_map_mono Nat.mono_cast,
    show areas25N.max? = some 1156 from by decide]
  norm_num

theorem sqrtLo_areas25 : sqrtLo areas25 = Real.sqrt 71 := by
  rw [sqrtLo, min?_map_mono sqrt_monotone, areas25_min?]
  rfl

theorem sqrtHi_areas25 : sqrtHi areas25 = Real.sqrt 1156 := by
  rw [sqrtHi, max?_map_mono sqrt_monotone, areas25_max?]
  rfl

theorem sqrt_1156 : Real.sqrt 1156 = 34 := by
  rw [show (1156 : ℝ) = 34 ^ 2 by norm_num]
  exact Real.sqrt_sq (by norm_num)

/-- Claim C4: with a non-degenerate magnitude range, the element(s) of
minimal magnitude map exactly to `min_size` and the element(s) of maximal
magnitude exactly to `max_size`; in particular
`calculate_star_sizes [1, 100] 10 100 = [10, 100]` exactly, and on the
bundled 25-record dataset (magnitudes 71–1156 km²)
`calculate_star_sizes areas25 80 1000` maps the entry 71 (index 19) to 80
and the entry 1156 (index 8) to 1000. -/
theorem scale_endpoints_exact :
    (∀ (areas : List ℝ) (minS maxS : ℝ),
      areas ≠ [] → (∀ a ∈ areas, 0 ≤ a) →
      (∃ x ∈ areas, ∃ y ∈ areas, x ≠ y) → minS < maxS →
      ∃ sizes, calculate_star_sizes areas minS maxS = some sizes ∧
        sizes.length = areas.length ∧
        (∀ i, i < areas.length → (∀ b ∈ areas, areas.getD i 0 ≤ b) →
          sizes.getD i none = some minS) ∧
        (∀ i, i < areas.length → (∀ b ∈ areas, b ≤ areas.getD i 0) →
          sizes.getD i none = some maxS)) ∧
    calculate_star_sizes [1, 100] 10 100 = some [some 10, some 100] ∧
    (∃ sizes, calculate_star_sizes areas25 80 1000 = some sizes ∧
      sizes.getD 19 none = some 80 ∧ sizes.getD 8 none = some 1000) := by
  refine ⟨?_, ?_, ?_⟩
  · intro areas minS maxS hne hpos hdist hlt
    obtain ⟨⟨hml, hlb⟩, hmM, hub⟩ := sqrtLoHi_spec areas hne
    have hlh := sqrtLo_lt_sqrtHi hpos hdist
    have heq := scale_eq areas minS maxS hne hpos hdist
    refine ⟨_, heq, by simp, ?_, ?_⟩
    · intro i hi hminel
      have hsome : areas[i]? = some areas[i] := List.getElem?_eq_getElem hi
      have hmem : areas[i] ∈ areas := List.getElem_mem hi
      have hgd : areas.getD i 0 = areas[i] := by
        rw [List.getD_eq_getElem?_getD, hsome]; rfl
      rw [hgd] at hminel
      rw [List.getD_eq_getElem?_getD, List.getElem?_map, hsome]
      simp only [Option.map_some', Option.getD_some]
      obtain ⟨aj, hj, hjeq⟩ := List.mem_map.mp hml
      have h2 : Real.sqrt areas[i] ≤ sqrtLo areas := by
        calc Real.sqrt areas[i] ≤ Real.sqrt aj :=
              Real.sqrt_le_sqrt (hminel aj hj)
          _ = sqrtLo areas := hjeq
      have h1 : sqrtLo areas ≤ Real.sqrt areas[i] :=
        hlb _ (List.mem_map_of_mem _ hmem)
      rw [le_antisymm h2 h1]
      norm_num
    · intro i hi hmaxel
      have hsome : areas[i]? = some areas[i] := List.getElem?_eq_getElem hi
      have hmem : areas[i] ∈ areas := List.getElem_mem hi
      have hgd : areas.getD i 0 = areas[i] := by
        rw [List.getD_eq_getElem?_getD, hsome]; rfl
      rw [hgd] at hmaxel
      rw [List.getD_eq_getElem?_getD, List.getElem?_map, hsome]
      simp only [Option.map_some', Option.getD_some]
      obtain ⟨aj, hj, hjeq⟩ := List.mem_map.mp hmM
      have h2 : sqrtHi areas ≤ Real.sqrt areas[i] := by
        calc sqrtHi areas = Real.sqrt aj := hjeq.symm
          _ ≤ Real.sqrt areas[i] := Real.sqrt_le_sqrt (hmaxel aj hj)
      have h1 : Real.sqrt areas[i] ≤ sqrtHi areas :=
        hub _ (List.mem_map_of_mem _ hmem)
      rw [le_antisymm h1 h2, div_self (sub_ne_zero.mpr (ne_of_gt hlh))]
      norm_num
  · have h100 : Real.sqrt 100 = 10 := by
      rw [show (100 : ℝ) = 10 ^ 2 by norm_num]
      exact Real.sqrt_sq (by norm_num)
    have h10 : ¬ (1 : ℝ) < 0 := by norm_num
    have h1000 : ¬ (100 : ℝ) < 0 := by norm_num
    norm_num [calculate_star_sizes, npSqrt, npMin, npMax, fpMin2, fpMax2,
      fpSub, fpDiv, fpMul, fpAdd, Real.sqrt_one, h100, h10, h1000,
      min_def, max_def]
  · have hne : areas25 ≠ [] := by simp [areas25]
    have hpos : ∀ a ∈ areas25, 0 ≤ a := by norm_num [areas25]
    have hdist : ∃ x ∈ areas25, ∃ y ∈ areas25, x ≠ y :=
      ⟨100, by norm_num [areas25], 720, by norm_num [areas25], by norm_num⟩
    have heq := scale_eq areas25 80 1000 hne hpos hdist
    have h19 : areas25[19]? = some 71 := by
      rw [areas25_eq_cast, List.getElem?_map,
        show areas25N[19]? = some 71 from by decide]
      norm_num
    have h8 : areas25[8]? = some 1156 := by
      rw [areas25_eq_cast, List.getElem?_map,
        show areas25N[8]? = some 1156 from by decide]
      norm_num
    have hlt71 : Real.sqrt 71 < Real.sqrt 1156 :=
      Real.sqrt_lt_sqrt (by norm_num) (by norm_num)
    refine ⟨_, heq, ?_, ?_⟩
    · rw [List.getD_eq_getElem?_getD, List.getElem?_map, h19]
      simp only [Option.map_some', Option.getD_some, sqrtLo_areas25]
      norm_num
    · rw [List.getD_eq_getElem?_getD, List.getElem?_map, h8]
      simp only [Option.map_some', Option.getD_some, sqrtLo_areas25,
        sqrtHi_areas25]
      rw [div_self (sub_ne_zero.mpr (ne_of_gt hlt71))]
      norm_num

/-- Claim C10: `calculate_star_sizes` is invariant under uniform positive
rescaling of the magnitudes: the square-root-then-affine normalization
cancels the common factor `c > 0`. -/
theorem scale_rescale_invariant (areas : List ℝ) (minS maxS c : ℝ)
    (hne : areas ≠ []) (hpos : ∀ a ∈ areas, 0 ≤ a)
    (hdist : ∃ x ∈ areas, ∃ y ∈ areas, x ≠ y) (_hlt : minS < maxS)
    (hc : 0 < c) :
    calculate_star_sizes (areas.map fun m => c * m) minS maxS =
      calculate_star_sizes areas minS maxS := by
  have hne' : areas.map (fun m => c * m) ≠ [] := by simpa using hne
  have hpos' : ∀ a ∈ areas.map (fun m => c * m), 0 ≤ a := by
    intro a ha
    obtain ⟨m, hm, rfl⟩ := List.mem_map.mp ha
    exact mul_nonneg hc.le (hpos m hm)
  have hdist' : ∃ x ∈ areas.map (fun m => c * m),
      ∃ y ∈ areas.map (fun m => c * m), x ≠ y := by
    obtain ⟨x, hx, y, hy, hxy⟩ := hdist
    exact ⟨c * x, List.mem_map_of_mem _ hx, c * y, List.mem_map_of_mem _ hy,
      fun h => hxy (mul_left_cancel₀ hc.ne' h)⟩
  have hsqc : Real.sqrt c ≠ 0 := (Real.sqrt_pos.mpr hc).ne'
  have hsc : (areas.map fun m => c * m).map Real.sqrt =
      (areas.map Real.sqrt).map fun s => Real.sqrt c * s := by
    rw [List.map_map, List.map_map]
    exact List.map_congr_left fun a _ => by
      simp [Function.comp, Real.sqrt_mul hc.le]
  have hmono : Monotone fun s : ℝ => Real.sqrt c * s :=
    fun a b h => mul_le_mul_of_nonneg_left h (Real.sqrt_nonneg c)
  obtain ⟨m, hm⟩ := min?_isSome_of_ne_nil
    (show areas.map Real.sqrt ≠ [] by simpa using hne)
  obtain ⟨M, hM⟩ := max?_isSome_of_ne_nil
    (show areas.map Real.sqrt ≠ [] by simpa using hne)
  have hlo : sqrtLo (areas.map fun m => c * m) = Real.sqrt c * sqrtLo areas := by
    rw [sqrtLo, hsc, min?_map_mono hmono, sqrtLo]
    simp [hm]
  have hhi : sqrtHi (areas.map fun m => c * m) = Real.sqrt c * sqrtHi areas := by
    rw [sqrtHi, hsc, max?_map_mono hmono, sqrtHi]
    simp [hM]
  rw [scale_eq _ _ _ hne' hpos' hdist', scale_eq _ _ _ hne hpos hdist,
    hlo, hhi, List.map_map]
  refine congrArg some (List.map_congr_left fun a _ => ?_)
  simp only [Function.comp]
  rw [Real.sqrt_mul hc.le, show Real.sqrt c * Real.sqrt a -
      Real.sqrt c * sqrtLo areas = Real.sqrt c * (Real.sqrt a - sqrtLo areas)
      from by ring,
    show Real.sqrt c * sqrtHi areas - Real.sqrt c * sqrtLo areas =
      Real.sqrt c * (sqrtHi areas - sqrtLo areas) from by ring,
    mul_div_mul_left _ _ hsqc]

/-- Witness for C10 at `areas = [1, 100]`, `min_size = 10`,
`max_size = 100`, `c = 4`. -/
theorem scale_rescale_invariant_witness :
    (([1, 100] : List ℝ) ≠ [] ∧ (∀ a ∈ ([1, 100] : List ℝ), 0 ≤ a) ∧
      (∃ x ∈ ([1, 100] : List ℝ), ∃ y ∈ ([1, 100] : List ℝ), x ≠ y) ∧
      (10 : ℝ) < 100 ∧ (0 : ℝ) < 4) ∧
    calculate_star_sizes (([1, 100] : List ℝ).map fun m => 4 * m) 10 100 =
      calculate_star_sizes [1, 100] 10 100 :=
  ⟨⟨by simp, by norm_num, ⟨1, by simp, 100, by simp, by norm_num⟩,
      by norm_num, by norm_num⟩,
    scale_rescale_invariant [1, 100] 10 100 4 (by simp) (by norm_num)
      ⟨1, by simp, 100, by simp, by norm_num⟩ (by norm_num) (by norm_num)⟩

/-- Claim C5: per glyph, the code emits exactly the back-to-front layer
sequence the spec describes — outer glow star at 2.5×size (15% opacity,
colour fill), mid glow star at 1.8×size (25%, colour), inner glow star at
1.3×size (35%, white), foreground star at size (95%, colour, 1.2-unit
outline), then five white sparkle dots of size 0.08×size (70%) at the
star-tip positions. -/
theorem renderGlyph_matches_spec (x y s : ℝ) (c : String) :
    renderGlyph x y s c = renderGlyph_spec x y s c := by
  have hang : ∀ i : ℕ, (i : ℝ) * 2 * Real.pi / 5 + Real.pi / 2 =
      (i : ℝ) * (2 * Real.pi) / 5 + Real.pi / 2 := fun i => by ring
  rw [renderGlyph, renderGlyph_spec]
  simp only [hang, show s * 2.5 = 2.5 * s from mul_comm s 2.5,
    show s * 1.8 = 1.8 * s from mul_comm s 1.8,
    show s * 1.3 = 1.3 * s from mul_comm s 1.3,
    show s * 0.08 = 0.08 * s from mul_comm s 0.08]

/-- Claim C6: the `i`-th sparkle dot (`i = 0..4`, list positions 4..8 of
the glyph) is placed exactly at
`(x + r·cos θ_i, y + r·sin θ_i)` with `θ_i = i·2π/5 + π/2` and
`r = √(size/π)·0.6`; for centre `(0,0)` and size 100 the first sparkle
lies straight up (angle `π/2`, x-coordinate 0) at radius
`√(100/π)·0.6 ≈ 3.39` (strictly between 3.38 and 3.40). -/
theorem sparkle_tip_positions (x y s : ℝ) (c : String) (i : Fin 5) :
    (renderGlyph x y s c).getD (4 + i.val) dummyPrim =
      { marker := "o",
        x := x + Real.sqrt (s / Real.pi) * 0.6 *
          Real.cos ((i.val : ℝ) * 2 * Real.pi / 5 + Real.pi / 2),
        y := y + Real.sqrt (s / Real.pi) * 0.6 *
          Real.sin ((i.val : ℝ) * 2 * Real.pi / 5 + Real.pi / 2),
        s := s * 0.08, c := "white", edgecolors := "none",
        linewidths := none, alpha := 0.7 } ∧
    (renderGlyph 0 0 100 c).getD 4 dummyPrim =
      { marker := "o", x := 0, y := Real.sqrt (100 / Real.pi) * 0.6,
        s := 8, c := "white", edgecolors := "none",
        linewidths := none, alpha := 0.7 } ∧
    3.38 < Real.sqrt (100 / Real.pi) * 0.6 ∧
    Real.sqrt (100 / Real.pi) * 0.6 < 3.40 := by
  have hpi : (0 : ℝ) < Real.pi := Real.pi_pos
  have hgt : (3.14 : ℝ) < Real.pi := Real.pi_gt_d2
  have hlt : Real.pi < 3.15 := Real.pi_lt_d2
  refine ⟨?_, ?_, ?_, ?_⟩
  · obtain ⟨iv, hiv⟩ := i
    interval_cases iv <;> rfl
  · have e : (renderGlyph 0 0 100 c).getD 4 dummyPrim =
        { marker := "o",
          x := 0 + Real.sqrt (100 / Real.pi) * 0.6 *
            Real.cos (((0 : ℕ) : ℝ) * 2 * Real.pi / 5 + Real.pi / 2),
          y := 0 + Real.sqrt (100 / Real.pi) * 0.6 *
            Real.sin (((0 : ℕ) : ℝ) * 2 * Real.pi / 5 + Real.pi / 2),
          s := 100 * 0.08, c := "white", edgecolors := "none",
          linewidths := none, alpha := 0.7 } := rfl
    rw [e]
    simp only [Primitive.mk.injEq]
    norm_num [Real.cos_pi_div_two, Real.sin_pi_div_two]
  · have hs : (169 / 30 : ℝ) < Real.sqrt (100 / Real.pi) := by
      rw [show (169 / 30 : ℝ) = ((169 : ℝ) / 30) from rfl]
      refine (Real.lt_sqrt (by norm_num)).mpr ?_
      rw [lt_div_iff₀ hpi]
      nlinarith
    nlinarith
  · have hs : Real.sqrt (100 / Real.pi) < 17 / 3 := by
      refine (Real.sqrt_lt' (by norm_num)).mpr ?_
      rw [div_lt_iff₀ hpi]
      nlinarith
    nlinarith

/-- Claim C7: the glyph renderer is deterministic — with the random
source threaded through explicitly, the emitted primitive list does not
depend on the random state (of any random source type), only on the
`(center, size, color)` inputs. -/
theorem renderGlyph_deterministic :
    ∀ (R R' : Type) (r : R) (r' : R') (x y s : ℝ) (c : String),
      (renderGlyphR R r x y s c).1 = (renderGlyphR R' r' x y s c).1 :=
  fun _ _ _ _ _ _ _ _ => rfl

/-- Claim C8: for `size = 0` the renderer still emits the full 9-primitive
sequence; every primitive has size 0 and, since the sparkle tip radius
`√(0/π)·0.6` collapses to 0, every primitive sits at the glyph centre. -/
theorem renderGlyph_zero_size (x y : ℝ) (c : String) :
    (renderGlyph x y 0 c).length = 9 ∧
    ∀ p ∈ renderGlyph x y 0 c, p.s = 0 ∧ p.x = x ∧ p.y = y := by
  refine ⟨rfl, ?_⟩
  intro p hp
  simp only [renderGlyph, show List.range 5 = [0, 1, 2, 3, 4] from rfl,
    List.map_cons, List.map_nil, List.cons_append, List.nil_append,
    List.mem_cons, List.not_mem_nil, or_false] at hp
  rcases hp with rfl | rfl | rfl | rfl | rfl | rfl | rfl | rfl | rfl <;>
    norm_num [Real.sqrt_zero]

/-- Claim C9: when the boundary file is absent `fetch_vietnam_boundary`
raises (surfaces a fatal error to the caller) and never substitutes a
default geometry; it returns a geometry `g` exactly when the file exists
and loading produced `g`. -/
theorem fetch_boundary_fails_fast :
    ∀ (G : Type) (load : Option G),
      fetch_vietnam_boundary G false load = Except.error boundaryErrMsg ∧
      ∀ (e : Bool) (g : G),
        fetch_vietnam_boundary G e load = Except.ok g ↔
          e = true ∧ load = some g := by
  intro G load
  constructor
  · rfl
  · intro e g
    cases e <;> cases load <;> simp [fetch_vietnam_boundary]

end VizModel
